import Mathlib

/-!
Verification of the `packable` binary serialization core and the
`trace-tools` log layer, shallowly embedded from the Rust sources.

Bytes are modelled as natural numbers below 256 and byte streams as
`List Nat`.  The `Packer`/`Unpacker` traits become structures holding a
state type and a transport-error type; the numeric `Packable`
implementations from `src/packable/packable/src/packable/num.rs` become
`numPack`/`numUnpack` (unsigned), `intPack`/`intUnpack` (signed
two's-complement), with `f32`/`f64` represented by their IEEE-754 bit
patterns (Rust's `to_le_bytes`/`from_le_bytes` on floats are exactly the
bit-pattern transforms, so the float codec coincides with the unsigned
codec at widths 4 and 8).
-/

/-- Little-endian byte representation of a natural number at width `w`:
the embedding of `to_le_bytes` for the unsigned integer types. -/
def toLeBytes : Nat → Nat → List Nat
  | 0, _ => []
  | w + 1, v => v % 256 :: toLeBytes w (v / 256)

/-- Inverse little-endian transform: the embedding of `from_le_bytes`
for the unsigned integer types. -/
def fromLeBytes : List Nat → Nat
  | [] => 0
  | b :: bs => b + 256 * fromLeBytes bs

/-- Two's-complement little-endian bytes of a signed value at width `w`:
the embedding of `to_le_bytes` for the signed integer types
(`v as uN` followed by the unsigned transform). -/
def intToLeBytes (w : Nat) (v : Int) : List Nat :=
  toLeBytes w (Int.toNat (v % (256 ^ w : Nat)))

/-- Two's-complement decoding at width `w`: the embedding of
`from_le_bytes` for the signed integer types. -/
def intFromLeBytes (w : Nat) (b : List Nat) : Int :=
  let n := fromLeBytes b
  if 2 * n < 256 ^ w then (n : Int) else (n : Int) - (256 ^ w : Nat)


/-- The `Packer` trait: a sink state `σ` with one operation, write an
exact byte slice, failing with the sink-defined error `ε`
(`Packer::pack_bytes`). -/
structure Packer (σ ε : Type) where
  pack_bytes : σ → List Nat → Except ε σ

/-- The `Unpacker` trait: a source state `σ` with one operation, read a
buffer of exact length `n`, failing with the source-defined error `ε`
(`Unpacker::unpack_bytes`). -/
structure Unpacker (σ ε : Type) where
  unpack_bytes : σ → Nat → Except ε (List Nat × σ)

/-- The crate's `UnpackError<U, P>`: either the decoded type's own
domain error (`Packable` case) or the source's transport error
(`Unpacker` case). -/
inductive UnpackError (U P : Type) where
  | packable : U → UnpackError U P
  | unpacker : P → UnpackError U P
deriving DecidableEq

/-- `Packable::pack` from `impl_packable_for_num` for the unsigned
types: `packer.pack_bytes(&self.to_le_bytes())`.  The result carries
only the sink's error type `ε`. -/
def numPack (P : Packer σ ε) (w : Nat) (v : Nat) (s : σ) : Except ε σ :=
  P.pack_bytes s (toLeBytes w v)

/-- `Packable::unpack` from `impl_packable_for_num` for the unsigned
types: read `size_of::<Self>()` bytes, then `from_le_bytes`.  The
domain-error type is `Empty` (Rust's `Infallible`); a source failure is
wrapped in `UnpackError.unpacker` by the `?` conversion. -/
def numUnpack (U : Unpacker σ ε) (w : Nat) (s : σ) :
    Except (UnpackError Empty ε) (Nat × σ) :=
  match U.unpack_bytes s w with
  | .ok (bs, s') => .ok (fromLeBytes bs, s')
  | .error e => .error (.unpacker e)

/-- `Packable::pack` for the signed types: identical shape, with the
two's-complement `to_le_bytes`. -/
def intPack (P : Packer σ ε) (w : Nat) (v : Int) (s : σ) : Except ε σ :=
  P.pack_bytes s (intToLeBytes w v)

/-- `Packable::unpack` for the signed types. -/
def intUnpack (U : Unpacker σ ε) (w : Nat) (s : σ) :
    Except (UnpackError Empty ε) (Int × σ) :=
  match U.unpack_bytes s w with
  | .ok (bs, s') => .ok (intFromLeBytes w bs, s')
  | .error e => .error (.unpacker e)

/-- An in-memory growable sink (the crate packs into a `Vec<u8>`-backed
packer, which cannot fail): `pack_bytes` appends. -/
def vecPacker : Packer (List Nat) Empty :=
  ⟨fun s bs => .ok (s ++ bs)⟩

/-- An in-memory source over a byte slice: reading `n` bytes consumes
exactly the first `n` bytes, and fails (transport error) when fewer are
available. -/
def sliceUnpacker : Unpacker (List Nat) Unit :=
  ⟨fun s n => if n ≤ s.length then .ok (s.take n, s.drop n) else .error ()⟩

/-- IEEE-754 single-precision NaN test on a bit pattern: exponent field
(bits 23–30) all ones and nonzero mantissa (bits 0–22). -/
def f32IsNaN (a : Nat) : Bool :=
  decide ((a / 2 ^ 23) % 2 ^ 8 = 255 ∧ a % 2 ^ 23 ≠ 0)

/-- Rust's `==` on `f32` (IEEE-754 equality), on bit patterns: `false`
whenever either side is NaN, `true` for `+0 == -0`, otherwise bitwise
equality. -/
def f32Eq (a b : Nat) : Bool :=
  if f32IsNaN a || f32IsNaN b then false
  else if a % 2 ^ 31 = 0 && b % 2 ^ 31 = 0 then true
  else decide (a = b)

/-- IEEE-754 double-precision NaN test on a bit pattern: exponent field
(bits 52–62) all ones and nonzero mantissa (bits 0–51). -/
def f64IsNaN (a : Nat) : Bool :=
  decide ((a / 2 ^ 52) % 2 ^ 11 = 2047 ∧ a % 2 ^ 52 ≠ 0)

/-- Rust's `==` on `f64` (IEEE-754 equality), on bit patterns. -/
def f64Eq (a b : Nat) : Bool :=
  if f64IsNaN a || f64IsNaN b then false
  else if a % 2 ^ 63 = 0 && b % 2 ^ 63 = 0 then true
  else decide (a = b)


/-- Modelled from the spec: the derive-generated unpack for a type with
a `verify_with` predicate (the `packable-derive` crate is not under
`src/`; only its compile-fail tests are).  Per §4.6, the predicate runs
strictly after the value is fully structurally decoded and strictly
only when the verify flag is true; when false, the raw
structurally-valid value is returned unchecked; a predicate failure
aborts the decode with that domain error. -/
def verifiedUnpack (dec : σ → Except (UnpackError E T) (A × σ))
    (pred : A → Except E Unit) (VERIFY : Bool) (s : σ) :
    Except (UnpackError E T) (A × σ) :=
  match dec s with
  | .error e => .error e
  | .ok (a, s') =>
    if VERIFY then
      match pred a with
      | .ok _ => .ok (a, s')
      | .error e => .error (.packable e)
    else .ok (a, s')

/-- Domain error of a tagged-union decode: the crate's
`UnknownTagError` carrying the offending tag value, or a payload
decoder's own domain error. -/
inductive UnionError (E : Type) where
  | unknownTag : Nat → UnionError E
  | payload : E → UnionError E
deriving DecidableEq

/-- A variant's payload decoder over the slice source: takes the verify
flag and the remaining bytes. -/
abbrev VariantDec (E A : Type) :=
  Bool → List Nat → Except (UnpackError E Unit) (A × List Nat)

/-- Modelled from the spec: the derive-generated unpack for a tagged
union (`packable-derive` is not under `src/`).  Per §4.5, read the
discriminant with the configured tag width's primitive codec, look up
the variant with that declared tag, thread the verify flag into its
payload decoder, and fail with an unknown-tag domain error when no
variant matches. -/
def unionUnpack (tagWidth : Nat) (variants : List (Nat × VariantDec E A))
    (VERIFY : Bool) (src : List Nat) :
    Except (UnpackError (UnionError E) Unit) (A × List Nat) :=
  match numUnpack sliceUnpacker tagWidth src with
  | .error (.packable e) => e.elim
  | .error (.unpacker e) => .error (.unpacker e)
  | .ok (tag, rest) =>
    match variants.find? (fun v => v.fst == tag) with
    | none => .error (.packable (.unknownTag tag))
    | some (_, dec) =>
      match dec VERIFY rest with
      | .ok (a, s') => .ok (a, s')
      | .error (.packable e) => .error (.packable (.payload e))
      | .error (.unpacker e) => .error (.unpacker e)

/-- The structural defect reported when a union declares two variants
with the same tag. -/
structure DuplicateTagDefect where

/-- A union codec that exists only for declarations whose tags are
pairwise distinct: the distinctness evidence is part of the codec. -/
structure AssembledUnion (E A : Type) where
  tagWidth : Nat
  variants : List (Nat × VariantDec E A)
  tags_distinct : (variants.map Prod.fst).Nodup

/-- Modelled from the spec: assembly of a union's codec from its
declared variant list (performed by `packable-derive`, not under
`src/`).  Per §4.5/§7, two variants sharing a tag are rejected at the
point the codec is assembled, before any instance can be packed or
unpacked. -/
def assembleUnion (tagWidth : Nat) (variants : List (Nat × VariantDec E A)) :
    Except DuplicateTagDefect (AssembledUnion E A) :=
  if h : (variants.map Prod.fst).Nodup then .ok ⟨tagWidth, variants, h⟩
  else .error ⟨⟩

/-- Decoding a union requires an assembled codec, so a declaration with
duplicate tags can never reach a decode. -/
def assembledUnpack (u : AssembledUnion E A) (VERIFY : Bool) (src : List Nat) :
    Except (UnpackError (UnionError E) Unit) (A × List Nat) :=
  unionUnpack u.tagWidth u.variants VERIFY src

/-- Payload decoder of the `None` variant of the `OptI32` declaration
in `tests/fail/duplicated_tag_enum.rs`: no payload bytes. -/
def optI32NoneDec : VariantDec Empty (Option Int) :=
  fun _ s => .ok (none, s)

/-- Payload decoder of the `Some` variant of `OptI32`: one `i32`. -/
def optI32SomeDec : VariantDec Empty (Option Int) :=
  fun _ s =>
    match intUnpack sliceUnpacker 4 s with
    | .ok (v, s') => .ok (some v, s')
    | .error e => .error e

/-- The two-field record of the spec's example scenario: a `u8` field
followed by a `u32` field. -/
structure TwoFieldRecord where
  a : Nat
  b : Nat
deriving DecidableEq

/-- Modelled from the spec: the derive-generated pack for a record
packs each field in declared order into the same sink (§4.4); the `u8`
and `u32` field codecs are the embeddings of `num.rs`. -/
def recordPack (r : TwoFieldRecord) (s : List Nat) : Except Empty (List Nat) :=
  match numPack vecPacker 1 r.a s with
  | .ok s' => numPack vecPacker 4 r.b s'
  | .error e => e.elim

/-- Modelled from the spec: the derive-generated unpack for the record
decodes the fields in declared order from the same source, threading
the verify flag unchanged (§4.4). -/
def recordUnpack (_VERIFY : Bool) (src : List Nat) :
    Except (UnpackError Empty Unit) (TwoFieldRecord × List Nat) :=
  match numUnpack sliceUnpacker 1 src with
  | .error e => .error e
  | .ok (a, s1) =>
    match numUnpack sliceUnpacker 4 s1 with
    | .error e => .error e
    | .ok (b, s2) => .ok (⟨a, b⟩, s2)

/-- One configured log target of `LogLayer` (a `LogTargetMakeWriter`),
specialised to a fixed event: its filter over metadata, whether
`format_event` succeeds for this event and target (a `fmt::Result`),
the formatted text when it does, and whether the underlying
`io::Write::write` call succeeds (its result is discarded). -/
structure LogTargetM (μ : Type) where
  enabled : μ → Bool
  fmtOk : Bool
  fmtText : String
  writeOk : Bool

/-- Replace a target's write outcome, leaving filter and formatting
untouched. -/
def setWriteOk (t : LogTargetM μ) (b : Bool) : LogTargetM μ :=
  ⟨t.enabled, t.fmtOk, t.fmtText, b⟩

/-- `LogLayer::on_event` from
`src/trace-tools/trace-tools/src/subscriber/layer/log.rs`: when the
event has normalized `log` metadata, for each configured target whose
filter enables that metadata, format the event and, only when
formatting succeeds, write the formatted bytes, discarding the write's
result (`let _ = io::Write::write(..)`).  The function returns the
texts actually handed to a writer; it has no error channel (`on_event`
returns `()` in the source). -/
def on_event (targets : List (LogTargetM μ)) (ev : Option μ) : List String :=
  match ev with
  | none => []
  | some m =>
    targets.filterMap fun t =>
      if t.enabled m then (if t.fmtOk then some t.fmtText else none) else none


/-- The `Picky`-style verification predicate of
`tests/fail/invalid_verify_with_struct_type.rs`: accept only the value
42, rejecting anything else with a domain error carrying the offending
value (`PickyError`). -/
def pickyVerify (v : Nat) : Except Nat Unit :=
  if v = 42 then .ok () else .error v

/-- Field decode of the `Picky` struct: the `u8` codec with its
infallible domain error coerced into the struct's declared error type
(the `From<Infallible> for PickyError` impl of the test file). -/
def pickyFieldDec (s : List Nat) : Except (UnpackError Nat Unit) (Nat × List Nat) :=
  match numUnpack sliceUnpacker 1 s with
  | .ok r => .ok r
  | .error (.packable e) => e.elim
  | .error (.unpacker e) => .error (.unpacker e)

theorem toLeBytes_length (w v : Nat) : (toLeBytes w v).length = w := by
  induction w generalizing v with
  | zero => rfl
  | succ w ih => simp [toLeBytes, ih]

theorem toLeBytes_lt (w v : Nat) : ∀ x ∈ toLeBytes w v, x < 256 := by
  induction w generalizing v with
  | zero => simp [toLeBytes]
  | succ w ih =>
    intro x hx
    simp only [toLeBytes, List.mem_cons] at hx
    rcases hx with h | h
    · omega
    · exact ih _ x h

theorem fromLeBytes_toLeBytes (w v : Nat) (h : v < 256 ^ w) :
    fromLeBytes (toLeBytes w v) = v := by
  induction w generalizing v with
  | zero =>
    simp [toLeBytes, fromLeBytes]
    omega
  | succ w ih =>
    have hlt : v / 256 < 256 ^ w := by
      have : (256 : Nat) ^ (w + 1) = 256 ^ w * 256 := by ring
      omega
    simp [toLeBytes, fromLeBytes, ih _ hlt]
    omega

theorem fromLeBytes_lt (b : List Nat) (hb : ∀ x ∈ b, x < 256) :
    fromLeBytes b < 256 ^ b.length := by
  induction b with
  | nil => simp [fromLeBytes]
  | cons x xs ih =>
    have hx : x < 256 := hb x (List.mem_cons_self x xs)
    have hxs := ih (fun y hy => hb y (List.mem_cons_of_mem x hy))
    have : (256 : Nat) ^ (x :: xs).length = 256 ^ xs.length * 256 := by
      simp [List.length_cons]; ring
    simp only [fromLeBytes]
    omega

theorem toLeBytes_fromLeBytes (b : List Nat) (hb : ∀ x ∈ b, x < 256) :
    toLeBytes b.length (fromLeBytes b) = b := by
  induction b with
  | nil => rfl
  | cons x xs ih =>
    have hx : x < 256 := hb x (List.mem_cons_self x xs)
    have hdiv : (x + 256 * fromLeBytes xs) / 256 = fromLeBytes xs := by omega
    have hmod : (x + 256 * fromLeBytes xs) % 256 = x := by omega
    simp only [List.length_cons, toLeBytes, fromLeBytes, hdiv, hmod,
      List.cons.injEq, true_and]
    exact ih (fun y hy => hb y (List.mem_cons_of_mem x hy))

theorem intToLeBytes_length (w : Nat) (v : Int) : (intToLeBytes w v).length = w := by
  unfold intToLeBytes
  exact toLeBytes_length _ _

theorem intFromLeBytes_intToLeBytes (w : Nat) (v : Int)
    (h1 : -((256 ^ w : Nat) : Int) ≤ 2 * v) (h2 : 2 * v < ((256 ^ w : Nat) : Int)) :
    intFromLeBytes w (intToLeBytes w v) = v := by
  have hm : (0 : Int) < ((256 ^ w : Nat) : Int) := by
    exact_mod_cast pow_pos (by norm_num : (0 : Nat) < 256) w
  have hmod_nonneg : 0 ≤ v % ((256 ^ w : Nat) : Int) := Int.emod_nonneg v (by omega)
  have hmod_lt : v % ((256 ^ w : Nat) : Int) < ((256 ^ w : Nat) : Int) :=
    Int.emod_lt_of_pos v hm
  have hn_lt : (v % ((256 ^ w : Nat) : Int)).toNat < 256 ^ w := by omega
  have hv : v % ((256 ^ w : Nat) : Int)
      = if 0 ≤ v then v else v + ((256 ^ w : Nat) : Int) := by
    split
    · exact Int.emod_eq_of_lt (by assumption) (by omega)
    · have hshift : (v + ((256 ^ w : Nat) : Int)) % ((256 ^ w : Nat) : Int)
          = v % ((256 ^ w : Nat) : Int) := by
        have hml := Int.add_mul_emod_self_left (a := v)
          (b := ((256 ^ w : Nat) : Int)) (c := 1)
        rwa [mul_one] at hml
      rw [← hshift]
      exact Int.emod_eq_of_lt (by omega) (by omega)
  simp only [intToLeBytes, intFromLeBytes]
  rw [fromLeBytes_toLeBytes w _ hn_lt]
  by_cases h0 : 0 ≤ v
  · simp only [h0, if_true] at hv
    split <;> omega
  · simp only [h0, if_false] at hv
    split <;> omega

theorem intToLeBytes_intFromLeBytes (w : Nat) (b : List Nat) (hlen : b.length = w)
    (hb : ∀ x ∈ b, x < 256) : intToLeBytes w (intFromLeBytes w b) = b := by
  have hn : fromLeBytes b < 256 ^ w := by
    have := fromLeBytes_lt b hb
    rwa [hlen] at this
  have key : (intFromLeBytes w b % ((256 ^ w : Nat) : Int)).toNat = fromLeBytes b := by
    simp only [intFromLeBytes]
    split
    · rw [Int.emod_eq_of_lt (by omega) (by exact_mod_cast hn)]
      omega
    · have hshift : (((fromLeBytes b : Nat) : Int) - ((256 ^ w : Nat) : Int))
          % ((256 ^ w : Nat) : Int)
          = ((fromLeBytes b : Nat) : Int) % ((256 ^ w : Nat) : Int) := by
        have hml := Int.add_mul_emod_self_left (a := ((fromLeBytes b : Nat) : Int))
          (b := ((256 ^ w : Nat) : Int)) (c := -1)
        rwa [mul_neg_one, ← sub_eq_add_neg] at hml
      rw [hshift, Int.emod_eq_of_lt (by omega) (by exact_mod_cast hn)]
      omega
  simp only [intToLeBytes]
  rw [key, ← hlen, toLeBytes_fromLeBytes b hb]
theorem numPack_vec (w v : Nat) (s : List Nat) :
    numPack vecPacker w v s = Except.ok (s ++ toLeBytes w v) := rfl

theorem intPack_vec (w : Nat) (v : Int) (s : List Nat) :
    intPack vecPacker w v s = Except.ok (s ++ intToLeBytes w v) := rfl

theorem numUnpack_slice (w : Nat) (src : List Nat) (h : w ≤ src.length) :
    numUnpack sliceUnpacker w src
      = Except.ok (fromLeBytes (src.take w), src.drop w) := by
  simp [numUnpack, sliceUnpacker, h]

theorem numUnpack_slice_short (w : Nat) (src : List Nat) (h : src.length < w) :
    numUnpack sliceUnpacker w src = Except.error (.unpacker ()) := by
  have h' : ¬ w ≤ src.length := by omega
  simp [numUnpack, sliceUnpacker, h']

theorem intUnpack_slice (w : Nat) (src : List Nat) (h : w ≤ src.length) :
    intUnpack sliceUnpacker w src
      = Except.ok (intFromLeBytes w (src.take w), src.drop w) := by
  simp [intUnpack, sliceUnpacker, h]

theorem intUnpack_slice_short (w : Nat) (src : List Nat) (h : src.length < w) :
    intUnpack sliceUnpacker w src = Except.error (.unpacker ()) := by
  have h' : ¬ w ≤ src.length := by omega
  simp [intUnpack, sliceUnpacker, h']

theorem f32Eq_refl_of_not_nan (a : Nat) (h : f32IsNaN a = false) :
    f32Eq a a = true := by
  simp only [f32Eq, h, Bool.or_self]
  split <;> simp_all

theorem f64Eq_refl_of_not_nan (a : Nat) (h : f64IsNaN a = false) :
    f64Eq a a = true := by
  simp only [f64Eq, h, Bool.or_self]
  split <;> simp_all

theorem log_filterMap_filter (μ : Type) (ts : List (LogTargetM μ)) (m : μ) :
    (ts.filterMap fun t =>
        if t.enabled m then (if t.fmtOk then some t.fmtText else none) else none)
      = ((ts.filter fun t => t.enabled m && t.fmtOk).map LogTargetM.fmtText) := by
  induction ts with
  | nil => rfl
  | cons t ts ih =>
    by_cases h1 : t.enabled m <;> by_cases h2 : t.fmtOk <;>
      simp [List.filterMap_cons, List.filter_cons, h1, h2, ih]

/-- C10: `LogLayer::on_event` never propagates a failure to its caller
(it has no error channel); an event without normalized `log` metadata
produces no writes; an event is written exactly to those configured
targets whose filter enables its metadata and for which formatting
succeeds (a formatting failure skips the write); and the outcome of the
underlying writer is discarded — replacing every target's write outcome
changes nothing observable. -/
theorem log_on_event_behavior :
    (∀ (μ : Type) (targets : List (LogTargetM μ)),
        on_event targets none = []) ∧
    (∀ (μ : Type) (targets : List (LogTargetM μ)) (m : μ),
        on_event targets (some m)
          = ((targets.filter fun t => t.enabled m && t.fmtOk).map
              LogTargetM.fmtText)) ∧
    (∀ (μ : Type) (targets : List (LogTargetM μ)) (ev : Option μ) (b : Bool),
        on_event (targets.map fun t => setWriteOk t b) ev
          = on_event targets ev) := by
  refine ⟨fun μ targets => rfl, ?_, ?_⟩
  · intro μ targets m
    simpa [on_event] using log_filterMap_filter μ targets m
  · intro μ targets ev b
    cases ev with
    | none => rfl
    | some m =>
      simp only [on_event, List.filterMap_map]
      rfl

/-- C8: packing the two-field record `{7, 300}` (a `u8` field then a
`u32` field, in declared order) yields exactly the five bytes
`07 2C 01 00 00`, and unpacking those five bytes — with either verify
setting — returns exactly `{7, 300}` with nothing left over. -/
theorem record_example_bytes :
    recordPack ⟨7, 300⟩ [] = Except.ok [0x07, 0x2C, 0x01, 0x00, 0x00] ∧
    recordUnpack true [0x07, 0x2C, 0x01, 0x00, 0x00]
      = Except.ok (⟨7, 300⟩, []) ∧
    recordUnpack false [0x07, 0x2C, 0x01, 0x00, 0x00]
      = Except.ok (⟨7, 300⟩, []) :=
  ⟨rfl, rfl, rfl⟩

/-- C2: for every fixed-width numeric type, `pack` hands the sink
exactly the `size_of::<T>()` little-endian bytes of the value and
nothing else (on the in-memory sink they are appended verbatim, with no
prefix, padding, or alignment), and `unpack` consumes exactly
`size_of::<T>()` bytes from the source and reconstructs the value by
the inverse little-endian transform.  Stated for the unsigned embedding
(`numPack`/`numUnpack`, which at widths 4 and 8 is also the f32/f64
bit-pattern codec) and the signed two's-complement embedding
(`intPack`/`intUnpack`). -/
theorem primitive_wire_format :
    (∀ (σ ε : Type) (P : Packer σ ε) (w v : Nat) (s : σ),
        numPack P w v s = P.pack_bytes s (toLeBytes w v)) ∧
    (∀ (w v : Nat) (s : List Nat),
        numPack vecPacker w v s = Except.ok (s ++ toLeBytes w v)) ∧
    (∀ w v : Nat, (toLeBytes w v).length = w) ∧
    (∀ (w : Nat) (src : List Nat), w ≤ src.length →
        numUnpack sliceUnpacker w src
          = Except.ok (fromLeBytes (src.take w), src.drop w)) ∧
    (∀ w v : Nat, v < 256 ^ w → fromLeBytes (toLeBytes w v) = v) ∧
    (∀ (σ ε : Type) (P : Packer σ ε) (w : Nat) (v : Int) (s : σ),
        intPack P w v s = P.pack_bytes s (intToLeBytes w v)) ∧
    (∀ (w : Nat) (v : Int), (intToLeBytes w v).length = w) ∧
    (∀ (w : Nat) (src : List Nat), w ≤ src.length →
        intUnpack sliceUnpacker w src
          = Except.ok (intFromLeBytes w (src.take w), src.drop w)) ∧
    (∀ (w : Nat) (v : Int), -((256 ^ w : Nat) : Int) ≤ 2 * v →
        2 * v < ((256 ^ w : Nat) : Int) →
        intFromLeBytes w (intToLeBytes w v) = v) :=
  ⟨fun _ _ _ _ _ _ => rfl,
   numPack_vec,
   toLeBytes_length,
   numUnpack_slice,
   fromLeBytes_toLeBytes,
   fun _ _ _ _ _ _ => rfl,
   intToLeBytes_length,
   intUnpack_slice,
   intFromLeBytes_intToLeBytes⟩

/-- C2 witness: the `u32` value 300 packs to `2C 01 00 00`; unpacking a
five-byte source consumes exactly four bytes; the signed round trip
holds at `-5`. -/
theorem primitive_wire_format_witness :
    numPack vecPacker 4 300 [] = Except.ok [0x2C, 0x01, 0x00, 0x00] ∧
    numUnpack sliceUnpacker 4 [0x2C, 0x01, 0x00, 0x00, 0x09]
      = Except.ok (300, [0x09]) ∧
    intFromLeBytes 4 (intToLeBytes 4 (-5)) = -5 := by
  refine ⟨?_, ?_, ?_⟩
  · exact (primitive_wire_format.2.1 4 300 []).trans rfl
  · exact (primitive_wire_format.2.2.2.1 4 [0x2C, 0x01, 0x00, 0x00, 0x09]
      (by decide)).trans rfl
  · exact primitive_wire_format.2.2.2.2.2.2.2.2 4 (-5) (by decide) (by decide)

/-- C6: a primitive `unpack` can fail only through the source's
transport error (its domain-error type is Rust's `Infallible`, embedded
as `Empty`): over any source, the result is either a decoded value or a
transport error wrapped in the `Unpacker` case, never a `Packable`
domain error; and a primitive `pack` carries only the sink's error
type, so with an infallible sink it always succeeds. -/
theorem primitive_error_channels :
    (∀ (σ ε : Type) (U : Unpacker σ ε) (w : Nat) (s : σ),
        (∃ v s', numUnpack U w s = Except.ok (v, s')) ∨
          (∃ p, numUnpack U w s = Except.error (.unpacker p))) ∧
    (∀ (σ ε : Type) (U : Unpacker σ ε) (w : Nat) (s : σ),
        (∃ v s', intUnpack U w s = Except.ok (v, s')) ∨
          (∃ p, intUnpack U w s = Except.error (.unpacker p))) ∧
    (∀ (w : Nat) (src : List Nat),
        numUnpack sliceUnpacker w src
            = Except.ok (fromLeBytes (src.take w), src.drop w) ∨
          numUnpack sliceUnpacker w src = Except.error (.unpacker ())) ∧
    (∀ (w v : Nat) (s : List Nat),
        numPack vecPacker w v s = Except.ok (s ++ toLeBytes w v)) ∧
    (∀ (w : Nat) (v : Int) (s : List Nat),
        intPack vecPacker w v s = Except.ok (s ++ intToLeBytes w v)) := by
  refine ⟨?_, ?_, ?_, numPack_vec, intPack_vec⟩
  · intro σ ε U w s
    unfold numUnpack
    cases U.unpack_bytes s w with
    | ok r => exact Or.inl ⟨fromLeBytes r.1, r.2, rfl⟩
    | error e => exact Or.inr ⟨e, rfl⟩
  · intro σ ε U w s
    unfold intUnpack
    cases U.unpack_bytes s w with
    | ok r => exact Or.inl ⟨intFromLeBytes w r.1, r.2, rfl⟩
    | error e => exact Or.inr ⟨e, rfl⟩
  · intro w src
    by_cases h : w ≤ src.length
    · exact Or.inl (numUnpack_slice w src h)
    · exact Or.inr (numUnpack_slice_short w src (by omega))

/-- C9: every byte sequence of exactly `size_of::<T>()` bytes is
accepted by the primitive `unpack` (no byte pattern is rejected), and
packing the decoded value reproduces exactly the input bytes — the
bytes-to-value direction is a bitwise identity, for the unsigned
embedding (which at widths 4 and 8 is the f32/f64 bit-pattern codec,
where `from_le_bytes`/`to_le_bytes` preserve the bit pattern) and for
the signed embedding. -/
theorem bytes_roundtrip (w : Nat) (b : List Nat) (hlen : b.length = w)
    (hb : ∀ x ∈ b, x < 256) :
    numUnpack sliceUnpacker w b = Except.ok (fromLeBytes b, []) ∧
    numPack vecPacker w (fromLeBytes b) [] = Except.ok b ∧
    intUnpack sliceUnpacker w b = Except.ok (intFromLeBytes w b, []) ∧
    intPack vecPacker w (intFromLeBytes w b) [] = Except.ok b := by
  subst hlen
  refine ⟨?_, ?_, ?_, ?_⟩
  · rw [numUnpack_slice b.length b le_rfl, List.take_length, List.drop_length]
  · rw [numPack_vec, List.nil_append, toLeBytes_fromLeBytes b hb]
  · rw [intUnpack_slice b.length b le_rfl, List.take_length, List.drop_length]
  · rw [intPack_vec, List.nil_append, intToLeBytes_intFromLeBytes b.length b rfl hb]

/-- C9 witness: the four bytes `2C 01 00 00` decode (unsigned) to 300
and re-encode to exactly the same four bytes. -/
theorem bytes_roundtrip_witness :
    numUnpack sliceUnpacker 4 [0x2C, 0x01, 0x00, 0x00] = Except.ok (300, []) ∧
    numPack vecPacker 4 300 [] = Except.ok [0x2C, 0x01, 0x00, 0x00] := by
  have h := bytes_roundtrip 4 [0x2C, 0x01, 0x00, 0x00] rfl (by decide)
  exact ⟨h.1.trans rfl, (Eq.trans rfl h.2.1 : _)⟩

/-- C1 counterexample: for the `f32` quiet NaN (bit pattern
`0x7FC00000`), packing and unpacking preserves the bit pattern exactly,
yet Rust's `==` on the resulting value is `false` (IEEE-754 equality
rejects `NaN == NaN`), so `unpack(pack(v)) == v` fails at `v = NaN`. -/
theorem f32_nan_roundtrip_not_eq :
    numPack vecPacker 4 0x7FC00000 [] = Except.ok [0x00, 0x00, 0xC0, 0x7F] ∧
    numUnpack sliceUnpacker 4 [0x00, 0x00, 0xC0, 0x7F]
      = Except.ok (0x7FC00000, []) ∧
    f32IsNaN 0x7FC00000 = true ∧
    f32Eq 0x7FC00000 0x7FC00000 = false :=
  ⟨rfl, rfl, by decide, by decide⟩

/-- C1 (amended): for every fixed-width integer value in range,
`unpack(pack(v)) = v`; for `f32`/`f64`, pack then unpack preserves the
bit pattern exactly, and the resulting value compares equal to the
original under Rust's `==` whenever it is not NaN. -/
theorem primitive_roundtrip_amended :
    (∀ w v : Nat, v < 256 ^ w →
        numPack vecPacker w v [] = Except.ok (toLeBytes w v) ∧
        numUnpack sliceUnpacker w (toLeBytes w v) = Except.ok (v, [])) ∧
    (∀ (w : Nat) (v : Int), -((256 ^ w : Nat) : Int) ≤ 2 * v →
        2 * v < ((256 ^ w : Nat) : Int) →
        intPack vecPacker w v [] = Except.ok (intToLeBytes w v) ∧
        intUnpack sliceUnpacker w (intToLeBytes w v) = Except.ok (v, [])) ∧
    (∀ bits : Nat, bits < 2 ^ 32 →
        numUnpack sliceUnpacker 4 (toLeBytes 4 bits) = Except.ok (bits, []) ∧
        (f32IsNaN bits = false → f32Eq bits bits = true)) ∧
    (∀ bits : Nat, bits < 2 ^ 64 →
        numUnpack sliceUnpacker 8 (toLeBytes 8 bits) = Except.ok (bits, []) ∧
        (f64IsNaN bits = false → f64Eq bits bits = true)) := by
  have hnum : ∀ w v : Nat, v < 256 ^ w →
      numUnpack sliceUnpacker w (toLeBytes w v) = Except.ok (v, []) := by
    intro w v h
    have hl : (toLeBytes w v).length = w := toLeBytes_length w v
    rw [numUnpack_slice w (toLeBytes w v) (le_of_eq hl.symm),
      List.take_of_length_le (le_of_eq hl), List.drop_eq_nil_of_le (le_of_eq hl),
      fromLeBytes_toLeBytes w v h]
  refine ⟨?_, ?_, ?_, ?_⟩
  · intro w v h
    exact ⟨(numPack_vec w v []).trans (by rw [List.nil_append]), hnum w v h⟩
  · intro w v h1 h2
    refine ⟨(intPack_vec w v []).trans (by rw [List.nil_append]), ?_⟩
    have hl : (intToLeBytes w v).length = w := intToLeBytes_length w v
    rw [intUnpack_slice w (intToLeBytes w v) (le_of_eq hl.symm),
      List.take_of_length_le (le_of_eq hl), List.drop_eq_nil_of_le (le_of_eq hl),
      intFromLeBytes_intToLeBytes w v h1 h2]
  · intro bits h
    exact ⟨hnum 4 bits (by norm_num at h ⊢; omega), f32Eq_refl_of_not_nan bits⟩
  · intro bits h
    exact ⟨hnum 8 bits (by norm_num at h ⊢; omega), f64Eq_refl_of_not_nan bits⟩

/-- C1 (amended) witness: the round trip at `u32` value 300, `i32`
value `-5`, and the non-NaN `f32` bit pattern of `1.0`
(`0x3F800000`). -/
theorem primitive_roundtrip_amended_witness :
    numUnpack sliceUnpacker 4 (toLeBytes 4 300) = Except.ok (300, []) ∧
    intUnpack sliceUnpacker 4 (intToLeBytes 4 (-5)) = Except.ok (-5, []) ∧
    f32Eq 0x3F800000 0x3F800000 = true :=
  ⟨(primitive_roundtrip_amended.1 4 300 (by decide)).2,
   (primitive_roundtrip_amended.2.1 4 (-5) (by decide) (by decide)).2,
   (primitive_roundtrip_amended.2.2.1 0x3F800000 (by decide)).2 (by decide)⟩

/-- C3: for a type with a `verify_with` predicate, unpacking with
verify off never invokes the predicate (the result is identical for any
two predicates) and returns the structurally decoded value even when
the predicate would reject it; unpacking with verify on runs the
predicate on the fully decoded value and returns the predicate's domain
error whenever it rejects. -/
theorem verify_gating :
    (∀ (σ E T A : Type) (dec : σ → Except (UnpackError E T) (A × σ))
        (p q : A → Except E Unit) (s : σ),
        verifiedUnpack dec p false s = verifiedUnpack dec q false s) ∧
    (∀ (σ E T A : Type) (dec : σ → Except (UnpackError E T) (A × σ))
        (p : A → Except E Unit) (s : σ) (a : A) (s' : σ),
        dec s = Except.ok (a, s') →
        verifiedUnpack dec p false s = Except.ok (a, s')) ∧
    (∀ (σ E T A : Type) (dec : σ → Except (UnpackError E T) (A × σ))
        (p : A → Except E Unit) (s : σ) (a : A) (s' : σ) (e : E),
        dec s = Except.ok (a, s') → p a = Except.error e →
        verifiedUnpack dec p true s = Except.error (.packable e)) := by
  refine ⟨?_, ?_, ?_⟩
  · intro σ E T A dec p q s
    unfold verifiedUnpack
    cases dec s with
    | ok r => rfl
    | error e => rfl
  · intro σ E T A dec p s a s' h
    unfold verifiedUnpack
    rw [h]
    simp
  · intro σ E T A dec p s a s' e h hp
    unfold verifiedUnpack
    rw [h]
    simp [hp]

/-- C3 witness: with the Picky predicate (accept only 42), the byte `07`
structurally decodes to 7; unverified unpack returns 7, verified unpack
returns the predicate's domain error carrying 7. -/
theorem verify_gating_witness :
    verifiedUnpack pickyFieldDec pickyVerify false [0x07]
      = Except.ok (7, []) ∧
    verifiedUnpack pickyFieldDec pickyVerify true [0x07]
      = Except.error (.packable 7) :=
  ⟨verify_gating.2.1 (List Nat) Nat Unit Nat pickyFieldDec pickyVerify
      [0x07] 7 [] rfl,
   verify_gating.2.2 (List Nat) Nat Unit Nat pickyFieldDec pickyVerify
      [0x07] 7 [] 7 rfl rfl⟩

/-- C7: decoding with verification off is at least as permissive as
with it on: whenever verified unpacking succeeds with a value, the
unverified unpacking of the same bytes also succeeds with the very same
value — for a `verify_with` type directly, and for a tagged union whose
variant payload decoders all have the property. -/
theorem unverified_at_least_as_permissive :
    (∀ (σ E T A : Type) (dec : σ → Except (UnpackError E T) (A × σ))
        (p : A → Except E Unit) (s : σ) (a : A) (s' : σ),
        verifiedUnpack dec p true s = Except.ok (a, s') →
        verifiedUnpack dec p false s = Except.ok (a, s')) ∧
    (∀ (E A : Type) (tagWidth : Nat)
        (variants : List (Nat × VariantDec E A)),
        (∀ d ∈ variants, ∀ (src : List Nat) (a : A) (s' : List Nat),
            d.2 true src = Except.ok (a, s') →
            d.2 false src = Except.ok (a, s')) →
        ∀ (src : List Nat) (a : A) (s' : List Nat),
          unionUnpack tagWidth variants true src = Except.ok (a, s') →
          unionUnpack tagWidth variants false src = Except.ok (a, s')) := by
  constructor
  · intro σ E T A dec p s a s' h
    unfold verifiedUnpack at h ⊢
    cases hdec : dec s with
    | error e => rw [hdec] at h; exact absurd h (by simp)
    | ok r =>
      rw [hdec] at h
      simp only [if_true, if_false] at h ⊢
      obtain ⟨a0, s0⟩ := r
      simp only at h ⊢
      cases hp : p a0 with
      | ok u => rw [hp] at h; simpa using h
      | error e => rw [hp] at h; exact absurd h (by simp)
  · intro E A tagWidth variants hmono src a s' h
    unfold unionUnpack at h ⊢
    cases htag : numUnpack sliceUnpacker tagWidth src with
    | error e =>
      cases e with
      | packable e => exact e.elim
      | unpacker e => rw [htag] at h; simp at h
    | ok r =>
      rw [htag] at h
      obtain ⟨tag, rest⟩ := r
      simp only at h ⊢
      cases hfind : variants.find? (fun v => v.1 == tag) with
      | none => rw [hfind] at h; simp at h
      | some d =>
        rw [hfind] at h
        have hd : d ∈ variants := List.mem_of_find?_eq_some hfind
        simp only at h ⊢
        cases hdec : d.2 true rest with
        | error e =>
          rw [hdec] at h
          cases e with
          | packable e => simp at h
          | unpacker e => simp at h
        | ok r' =>
          rw [hdec] at h
          obtain ⟨a0, s0⟩ := r'
          simp only at h
          have := hmono d hd rest a0 s0 hdec
          rw [this]
          exact h

/-- C7 witness: the Picky struct at the accepted byte `2A` (42), and
the two-variant union at tag 1 with payload `-5`: verified success
implies identical unverified success at these concrete inputs. -/
theorem unverified_at_least_as_permissive_witness :
    verifiedUnpack pickyFieldDec pickyVerify false [0x2A]
      = Except.ok (42, []) ∧
    unionUnpack 1 [(0, optI32NoneDec), (1, optI32SomeDec)] false
        [0x01, 0xFB, 0xFF, 0xFF, 0xFF]
      = Except.ok (some (-5), []) := by
  constructor
  · exact unverified_at_least_as_permissive.1 (List Nat) Nat Unit Nat
      pickyFieldDec pickyVerify [0x2A] 42 [] rfl
  · refine unverified_at_least_as_permissive.2 Empty (Option Int) 1
      [(0, optI32NoneDec), (1, optI32SomeDec)] ?_
      [0x01, 0xFB, 0xFF, 0xFF, 0xFF] (some (-5)) [] rfl
    intro d hd src a s' h
    simp only [List.mem_cons, List.not_mem_nil, or_false] at hd
    rcases hd with rfl | rfl
    · exact h
    · exact h

/-- C4: a union declaring two variants with the same tag — the `OptI32`
declaration of the compile-fail test, both variants tagged 0 — is
rejected when its codec is assembled, before any instance exists to
pack or unpack: assembly yields a codec only for declarations whose
tags are pairwise distinct, and every declaration with a repeated tag
is refused with the duplicate-tag defect. -/
theorem duplicate_tag_rejected :
    assembleUnion (E := Empty) 1 [(0, optI32NoneDec), (0, optI32SomeDec)]
      = Except.error ⟨⟩ ∧
    (∀ (E A : Type) (tw : Nat) (variants : List (Nat × VariantDec E A))
        (u : AssembledUnion E A),
        assembleUnion tw variants = Except.ok u →
        (variants.map Prod.fst).Nodup) ∧
    (∀ (E A : Type) (tw : Nat) (variants : List (Nat × VariantDec E A)),
        ¬ (variants.map Prod.fst).Nodup →
        assembleUnion tw variants = Except.error ⟨⟩) := by
  refine ⟨rfl, ?_, ?_⟩
  · intro E A tw variants u h
    unfold assembleUnion at h
    split at h
    · assumption
    · exact absurd h (by simp)
  · intro E A tw variants h
    unfold assembleUnion
    split
    · exact absurd (by assumption) h
    · rfl

/-- C4 witness: the distinct-tag declaration `{0 → None, 1 → Some}`
assembles to a codec (so its tags are provably distinct), while the
duplicated declaration `{0, 0}` of the test file is rejected. -/
theorem duplicate_tag_rejected_witness :
    ([(0, optI32NoneDec), (1, optI32SomeDec)].map Prod.fst).Nodup ∧
    assembleUnion (E := Empty) 1 [(0, optI32NoneDec), (0, optI32SomeDec)]
      = Except.error ⟨⟩ :=
  ⟨duplicate_tag_rejected.2.1 Empty (Option Int) 1
      [(0, optI32NoneDec), (1, optI32SomeDec)]
      ⟨1, [(0, optI32NoneDec), (1, optI32SomeDec)], by decide⟩ rfl,
   duplicate_tag_rejected.2.2 Empty (Option Int) 1
      [(0, optI32NoneDec), (0, optI32SomeDec)] (by decide)⟩

/-- C5: for every tagged union and every byte sequence whose leading
tag bytes decode to a value matching no declared variant, unpack — with
either verify setting — returns the unknown-tag domain error carrying
the offending tag value (the function is total, so it can neither panic
nor produce a default value). -/
theorem unknown_tag_error (E A : Type) (tagWidth : Nat)
    (variants : List (Nat × VariantDec E A)) (VERIFY : Bool)
    (src : List Nat) (tag : Nat) (rest : List Nat)
    (hdec : numUnpack sliceUnpacker tagWidth src = Except.ok (tag, rest))
    (hmiss : ∀ t ∈ variants.map Prod.fst, t ≠ tag) :
    unionUnpack tagWidth variants VERIFY src
      = Except.error (.packable (.unknownTag tag)) := by
  unfold unionUnpack
  rw [hdec]
  have hfind : variants.find? (fun v => v.1 == tag) = none := by
    rw [List.find?_eq_none]
    intro x hx
    simp only [beq_iff_eq]
    exact hmiss x.1 (List.mem_map_of_mem Prod.fst hx)
  simp only [hfind]

/-- C5 witness: decoding the single byte `05` against the union
`{0 → None, 1 → Some}` fails with `UnknownTagError` carrying 5. -/
theorem unknown_tag_error_witness :
    unionUnpack 1 [(0, optI32NoneDec), (1, optI32SomeDec)] true [0x05]
      = Except.error (.packable (.unknownTag 5)) :=
  unknown_tag_error Empty (Option Int) 1
    [(0, optI32NoneDec), (1, optI32SomeDec)] true [0x05] 5 [] rfl (by decide)
